import Mathlib

/-!
Verification of the MCP tool-protocol schema layer
(`LATEST_PROTOCOL_VERSION`, `SUPPORTED_PROTOCOL_VERSIONS`, and the zod/v4
schemas `BaseParamsSchema`, `RequestSchema`, `ServerCapabilitiesSchema`,
`ToolSchema`, the content-part schemas and `CallToolResultSchema`) together
with the protocol-client operations described by the specification
(version negotiation, pagination aggregation, tool proxies).

JSON values are modelled by the inductive `Json`; each zod schema is
embedded as a parse function `Json → Option Json` following zod/v4
semantics: a plain `z.object` strips unknown keys, `.passthrough()` keeps
them, required keys must be present, `z.optional` keys are skipped when
absent, `.default(d)` materialises `d` when the key is absent (in zod v4
`ZodOptional` delegates to an inner `ZodDefault`, so
`z.boolean().default(false).optional()` still yields `false` for an absent
key), and `z.union`/`.or` tries its options left to right, returning the
first success.
-/

/-- JSON values (numbers modelled as integers; precision is irrelevant to
the schemas under study). -/
inductive Json where
  | null : Json
  | bool (b : Bool) : Json
  | num (n : Int) : Json
  | str (s : String) : Json
  | arr (xs : List Json) : Json
  | obj (fields : List (String × Json)) : Json

/-- Look up a field of a JSON object. -/
def Json.getField (v : Json) (k : String) : Option Json :=
  match v with
  | .obj fields => (fields.find? fun p => p.1 == k).map Prod.snd
  | _ => none

/-- One known key of a zod object schema: its name, the parser for its
value when present, and the behaviour when absent (`none` = required,
`some none` = optional/skipped, `some (some d)` = default `d`). -/
structure FieldSpec where
  key : String
  parseVal : Json → Option Json
  onAbsent : Option (Option Json)

/-- Parse the fields present in the input object: known keys are checked
by their value parser, unknown keys are kept when `keepUnknown` is true
(`.passthrough()`) and dropped otherwise (zod's default strip mode). -/
def parseKnown (specs : List FieldSpec) (keepUnknown : Bool) :
    List (String × Json) → Option (List (String × Json))
  | [] => some []
  | (k, v) :: rest =>
    match specs.find? fun s => s.key == k with
    | some s =>
      match s.parseVal v, parseKnown specs keepUnknown rest with
      | some w, some tail => some ((k, w) :: tail)
      | _, _ => none
    | none =>
      match parseKnown specs keepUnknown rest with
      | some tail => some (if keepUnknown then (k, v) :: tail else tail)
      | none => none

/-- Handle schema keys absent from the input object: a required key fails
the parse, an optional key is skipped, a defaulted key materialises its
default value. -/
def parseAbsent : List FieldSpec → List (String × Json) →
    Option (List (String × Json))
  | [], _ => some []
  | s :: rest, fields =>
    match parseAbsent rest fields with
    | none => none
    | some tail =>
      match fields.find? fun p => p.1 == s.key with
      | some _ => some tail
      | none =>
        match s.onAbsent with
        | none => none
        | some none => some tail
        | some (some d) => some ((s.key, d) :: tail)

/-- A zod object schema: parses only objects; output carries the parsed
present fields followed by materialised defaults. -/
def parseObj (specs : List FieldSpec) (keepUnknown : Bool) : Json → Option Json
  | .obj fields =>
    match parseKnown specs keepUnknown fields, parseAbsent specs fields with
    | some known, some extra => some (.obj (known ++ extra))
    | _, _ => none
  | _ => none

/-- `z.union([...])` / `.or`: try the options in order, first success wins. -/
def parseUnion : List (Json → Option Json) → Json → Option Json
  | [], _ => none
  | f :: fs, v =>
    match f v with
    | some w => some w
    | none => parseUnion fs v

/-- Parse every element of a list, failing if any element fails. -/
def parseElems (f : Json → Option Json) : List Json → Option (List Json)
  | [] => some []
  | x :: xs =>
    match f x, parseElems f xs with
    | some y, some ys => some (y :: ys)
    | _, _ => none

/-- `z.array(S)`: parses only arrays, element-wise. -/
def parseArray (f : Json → Option Json) : Json → Option Json
  | .arr xs =>
    match parseElems f xs with
    | some ys => some (.arr ys)
    | none => none
  | _ => none

/-- `z.string()`. -/
def jsonString : Json → Option Json
  | .str s => some (.str s)
  | _ => none

/-- `z.boolean()`. -/
def jsonBool : Json → Option Json
  | .bool b => some (.bool b)
  | _ => none

/-- `z.literal(lit)` for string literals. -/
def jsonLiteral (lit : String) : Json → Option Json
  | .str s => if s == lit then some (.str s) else none
  | _ => none

/-- A character allowed in the body of a base64 string. -/
def isBase64Char (c : Char) : Bool :=
  ('A' ≤ c && c ≤ 'Z') || ('a' ≤ c && c ≤ 'z') ||
    ('0' ≤ c && c ≤ '9') || c == '+' || c == '/'

/-- zod's base64 check: length a multiple of four, base64 characters with
at most two trailing padding characters. -/
def isBase64 (s : String) : Bool :=
  let cs := s.data
  cs.length % 4 == 0 &&
    (let body := cs.takeWhile isBase64Char
     let rest := cs.drop body.length
     rest == [] || rest == ['='] || rest == ['=', '='])

/-- `z.string().base64()`. -/
def jsonBase64 : Json → Option Json
  | .str s => if isBase64 s then some (.str s) else none
  | _ => none

/-- `z.object({}).passthrough()`: any object, kept unchanged. -/
def jsonAnyObject : Json → Option Json
  | .obj fields => some (.obj fields)
  | _ => none

/-- `z.unknown()`: accepts anything (and, as an object field, accepts an
absent key). -/
def jsonUnknown : Json → Option Json := fun v => some v

/-! ### Protocol constants and message schemas (from the source) -/

def LATEST_PROTOCOL_VERSION : String := "2025-06-18"

def SUPPORTED_PROTOCOL_VERSIONS : List String :=
  [LATEST_PROTOCOL_VERSION, "2025-03-26", "2024-11-05"]

/-- `z.object({name: z.string(), version: z.string()}).passthrough()`. -/
def ClientOrServerImplementationSchema : Json → Option Json :=
  parseObj [⟨"name", jsonString, none⟩, ⟨"version", jsonString, none⟩] true

/-- `z.object({_meta: z.optional(z.object({}).passthrough())}).passthrough()`. -/
def BaseParamsSchema : Json → Option Json :=
  parseObj [⟨"_meta", jsonAnyObject, some none⟩] true

/-- `ResultSchema = BaseParamsSchema`. -/
def ResultSchema : Json → Option Json := BaseParamsSchema

/-- `z.object({method: z.string(), params: z.optional(BaseParamsSchema)})` —
note: no `.passthrough()`, so unknown top-level keys are stripped. -/
def RequestSchema : Json → Option Json :=
  parseObj [⟨"method", jsonString, none⟩, ⟨"params", BaseParamsSchema, some none⟩]
    false

/-- The `prompts` / `tools` capability sub-schema:
`z.object({listChanged: z.optional(z.boolean())}).passthrough()`. -/
def ListChangedCapabilitySchema : Json → Option Json :=
  parseObj [⟨"listChanged", jsonBool, some none⟩] true

/-- The `resources` capability sub-schema. -/
def ResourcesCapabilitySchema : Json → Option Json :=
  parseObj [⟨"subscribe", jsonBool, some none⟩, ⟨"listChanged", jsonBool, some none⟩]
    true

/-- `ServerCapabilitiesSchema`: five optional sub-objects, all passthrough. -/
def ServerCapabilitiesSchema : Json → Option Json :=
  parseObj
    [⟨"experimental", jsonAnyObject, some none⟩,
     ⟨"logging", jsonAnyObject, some none⟩,
     ⟨"prompts", ListChangedCapabilitySchema, some none⟩,
     ⟨"resources", ResourcesCapabilitySchema, some none⟩,
     ⟨"tools", ListChangedCapabilitySchema, some none⟩]
    true

/-- `InitializeResultSchema = ResultSchema.extend({...})`. -/
def InitializeResultSchema : Json → Option Json :=
  parseObj
    [⟨"_meta", jsonAnyObject, some none⟩,
     ⟨"protocolVersion", jsonString, none⟩,
     ⟨"capabilities", ServerCapabilitiesSchema, none⟩,
     ⟨"serverInfo", ClientOrServerImplementationSchema, none⟩,
     ⟨"instructions", jsonString, some none⟩]
    true

/-- `PaginatedResultSchema = ResultSchema.extend({nextCursor: z.optional(z.string())})`. -/
def PaginatedResultSchema : Json → Option Json :=
  parseObj [⟨"_meta", jsonAnyObject, some none⟩, ⟨"nextCursor", jsonString, some none⟩]
    true

/-- The declared input schema of a tool descriptor:
`z.object({type: z.literal('object'), properties: z.optional(z.object({}).passthrough())}).passthrough()`. -/
def ToolInputSchemaSchema : Json → Option Json :=
  parseObj
    [⟨"type", jsonLiteral "object", none⟩,
     ⟨"properties", jsonAnyObject, some none⟩]
    true

/-- `ToolSchema`: a server-declared tool descriptor. -/
def ToolSchema : Json → Option Json :=
  parseObj
    [⟨"name", jsonString, none⟩,
     ⟨"description", jsonString, some none⟩,
     ⟨"inputSchema", ToolInputSchemaSchema, none⟩]
    true

/-- `ListToolsResultSchema = PaginatedResultSchema.extend({tools: z.array(ToolSchema)})`. -/
def ListToolsResultSchema : Json → Option Json :=
  parseObj
    [⟨"_meta", jsonAnyObject, some none⟩,
     ⟨"nextCursor", jsonString, some none⟩,
     ⟨"tools", parseArray ToolSchema, none⟩]
    true

/-! ### Content-part schemas -/

/-- `TextContentSchema`. -/
def TextContentSchema : Json → Option Json :=
  parseObj [⟨"type", jsonLiteral "text", none⟩, ⟨"text", jsonString, none⟩] true

/-- `ImageContentSchema` (`data` must be base64). -/
def ImageContentSchema : Json → Option Json :=
  parseObj
    [⟨"type", jsonLiteral "image", none⟩,
     ⟨"data", jsonBase64, none⟩,
     ⟨"mimeType", jsonString, none⟩]
    true

/-- `TextResourceContentsSchema = ResourceContentsSchema.extend({text: z.string()})`. -/
def TextResourceContentsSchema : Json → Option Json :=
  parseObj
    [⟨"uri", jsonString, none⟩,
     ⟨"mimeType", jsonString, some none⟩,
     ⟨"text", jsonString, none⟩]
    true

/-- `BlobResourceContentsSchema = ResourceContentsSchema.extend({blob: z.string().base64()})`. -/
def BlobResourceContentsSchema : Json → Option Json :=
  parseObj
    [⟨"uri", jsonString, none⟩,
     ⟨"mimeType", jsonString, some none⟩,
     ⟨"blob", jsonBase64, none⟩]
    true

/-- `EmbeddedResourceSchema`: `type: 'resource'` with a resource that is a
union of the text and blob resource shapes, tried in that order. -/
def EmbeddedResourceSchema : Json → Option Json :=
  parseObj
    [⟨"type", jsonLiteral "resource", none⟩,
     ⟨"resource",
      parseUnion [TextResourceContentsSchema, BlobResourceContentsSchema], none⟩]
    true

/-- The content-part union inside `CallToolResultSchema.content`. -/
def ContentPartSchema : Json → Option Json :=
  parseUnion [TextContentSchema, ImageContentSchema, EmbeddedResourceSchema]

/-- The `content[]` dialect of `CallToolResultSchema`:
`ResultSchema.extend({content: z.array(...), isError: z.boolean().default(false).optional()})`.
In zod v4 the absent-key behaviour of `.default(false).optional()` is to
materialise `false`. -/
def CallToolContentResultSchema : Json → Option Json :=
  parseObj
    [⟨"_meta", jsonAnyObject, some none⟩,
     ⟨"content", parseArray ContentPartSchema, none⟩,
     ⟨"isError", jsonBool, some (some (.bool false))⟩]
    true

/-- The legacy dialect: `ResultSchema.extend({toolResult: z.unknown()})`;
`z.unknown()` accepts an absent key. -/
def CallToolLegacyResultSchema : Json → Option Json :=
  parseObj
    [⟨"_meta", jsonAnyObject, some none⟩,
     ⟨"toolResult", jsonUnknown, some none⟩]
    true

/-- `CallToolResultSchema`: the `content[]` dialect `.or` the legacy dialect. -/
def CallToolResultSchema : Json → Option Json :=
  parseUnion [CallToolContentResultSchema, CallToolLegacyResultSchema]

/-! ### Spec-modelled protocol-client operations

The client operations below (version negotiation, pagination aggregation,
tool proxies) are described by the specification; only their schemas and
constants appear in the source files, so the operations are modelled from
the specification's words. -/

/-- Protocol-layer errors of the specification's error taxonomy. -/
inductive McpError where
  | protocolVersionMismatch (supported : List String) (offered : String)
  | paginationLoop (cursor : String)
  | transportFailure

/-- Modelled from the spec: version negotiation (§4.1) — the client code
is absent from the sources. If the server's offered version is present in
`SUPPORTED_PROTOCOL_VERSIONS` it is adopted; otherwise negotiation fails
with `ProtocolVersionMismatch` carrying the client's supported set and the
server's offered value, and no session value exists. -/
def negotiate (offered : String) : Except McpError String :=
  if offered ∈ SUPPORTED_PROTOCOL_VERSIONS then .ok offered
  else .error (.protocolVersionMismatch SUPPORTED_PROTOCOL_VERSIONS offered)

/-- One pagination response: a page of tool descriptors plus an optional
continuation cursor. -/
structure ToolPage where
  tools : List Json
  nextCursor : Option String

/-- Modelled from the spec: the aggregate `listTools` operation (§4.4) —
the client code is absent from the sources. The server's successive
responses are given as a list; the aggregation concatenates `tools` arrays
until a response omits `nextCursor`, fails with `PaginationLoopError` when
a response repeats the previous response's cursor, and fails (returning no
partial list) when responses run out mid-pagination. `prev` is the cursor
of the previous response. -/
def aggregatePages : List ToolPage → Option String → Except McpError (List Json)
  | [], _ => .error .transportFailure
  | p :: rest, prev =>
    match p.nextCursor with
    | none => .ok p.tools
    | some c =>
      if prev = some c then .error (.paginationLoop c)
      else
        match aggregatePages rest (some c) with
        | .ok ts => .ok (p.tools ++ ts)
        | .error e => .error e

/-- A property of a declared tool input schema, as in the spec's example
`{query: string, minLength 1}`. -/
inductive PropSchema where
  | stringProp (minLength : Nat)

/-- Modelled from the spec: a tool descriptor as consumed by the proxy
generator — a name and the declared input schema's properties. -/
structure ToolDescriptor where
  name : String
  properties : List (String × PropSchema)

/-- Does a JSON value satisfy one declared property schema? -/
def validateProp : PropSchema → Json → Bool
  | .stringProp minLength, .str s => decide (minLength ≤ s.length)
  | _, _ => false

/-- Modelled from the spec: input validation of a tool proxy (§4.6) —
returns `none` for a valid input and `some path` for the first failing
schema path. -/
def validateInput (props : List (String × PropSchema)) (input : Json) :
    Option String :=
  match input with
  | .obj fields =>
    props.findSome? fun q =>
      match fields.find? (fun p => p.1 == q.1) with
      | none => some q.1
      | some p => if validateProp q.2 p.2 then none else some q.1
  | _ => some ""

/-- A `tools/call` request issued by a proxy. -/
structure CallRequest where
  toolName : String
  args : Json

/-- Outcome of invoking a tool proxy. -/
inductive ProxyResult where
  | success (r : Json)
  | inputValidationError (toolName : String) (path : String)

/-- Modelled from the spec: a generated tool proxy (§4.6) — the generator
code is absent from the sources. The proxy validates the input against the
tool's declared schema before any network activity; on failure it produces
an `InputValidationError` naming the tool and the failing path and issues
no call request, on success it issues exactly one call request. The second
component lists the requests issued. -/
def executeProxy (t : ToolDescriptor) (server : CallRequest → Json)
    (input : Json) : ProxyResult × List CallRequest :=
  match validateInput t.properties input with
  | some path => (.inputValidationError t.name path, [])
  | none => (.success (server ⟨t.name, input⟩), [⟨t.name, input⟩])

/-- A parser that returns its input unchanged whenever it succeeds. -/
def IdOnSuccess (f : Json → Option Json) : Prop :=
  ∀ v w, f v = some w → w = v

/-! ### Theorems -/

theorem parseUnion_pair_isSome (f g : Json → Option Json) (v : Json) :
    (parseUnion [f, g] v).isSome = true ↔
      (f v).isSome = true ∨ (g v).isSome = true := by
  cases h1 : f v <;> cases h2 : g v <;> simp [parseUnion, h1, h2]

/-- Claim C1: a payload is accepted by the two-dialect `ToolResult` schema
exactly when it matches the `content[]` dialect or the legacy `toolResult`
dialect; it is rejected exactly when it matches neither. -/
theorem callToolResult_union_acceptance (v : Json) :
    (CallToolResultSchema v).isSome = true ↔
      (CallToolContentResultSchema v).isSome = true ∨
        (CallToolLegacyResultSchema v).isSome = true :=
  parseUnion_pair_isSome _ _ v

/-- Claim C10: `SUPPORTED_PROTOCOL_VERSIONS` has `LATEST_PROTOCOL_VERSION`
as its first element, and in particular contains it. -/
theorem supported_versions_latest_first :
    SUPPORTED_PROTOCOL_VERSIONS.head? = some LATEST_PROTOCOL_VERSION ∧
      LATEST_PROTOCOL_VERSION ∈ SUPPORTED_PROTOCOL_VERSIONS := by
  refine ⟨rfl, ?_⟩
  simp [SUPPORTED_PROTOCOL_VERSIONS]

/-- Claim C4: version negotiation adopts exactly the server's offered
version when it is in `SUPPORTED_PROTOCOL_VERSIONS`, and otherwise fails
with `ProtocolVersionMismatch` carrying the client's supported set and the
offered value (no session value exists on failure). -/
theorem negotiate_supported_or_mismatch (offered : String) :
    (offered ∈ SUPPORTED_PROTOCOL_VERSIONS → negotiate offered = .ok offered) ∧
      (offered ∉ SUPPORTED_PROTOCOL_VERSIONS →
        negotiate offered =
          .error (.protocolVersionMismatch SUPPORTED_PROTOCOL_VERSIONS offered)) := by
  constructor <;> intro h <;> simp [negotiate, h]

theorem negotiate_supported_or_mismatch_witness :
    negotiate "2025-03-26" = .ok "2025-03-26" ∧
      negotiate "1999-01-01" =
        .error (.protocolVersionMismatch SUPPORTED_PROTOCOL_VERSIONS "1999-01-01") :=
  ⟨(negotiate_supported_or_mismatch "2025-03-26").1 (by decide),
   (negotiate_supported_or_mismatch "1999-01-01").2 (by decide)⟩

/-- Claim C6: a generated tool proxy validates its input before any
network activity; on failure it produces an `InputValidationError` naming
the tool and the failing path and issues no call request, on valid input
it issues exactly one call request. -/
theorem tool_proxy_input_validation (t : ToolDescriptor)
    (server : CallRequest → Json) (input : Json) :
    (∀ path, validateInput t.properties input = some path →
        executeProxy t server input = (.inputValidationError t.name path, [])) ∧
      (validateInput t.properties input = none →
        (executeProxy t server input).2 = [⟨t.name, input⟩]) := by
  constructor
  · intro path h
    simp [executeProxy, h]
  · intro h
    simp [executeProxy, h]

theorem tool_proxy_input_validation_witness :
    executeProxy ⟨"webSearch", [("query", .stringProp 1)]⟩ (fun _ => Json.null)
        (Json.obj [("query", Json.str "")]) =
      (.inputValidationError "webSearch" "query", []) ∧
      (executeProxy ⟨"webSearch", [("query", .stringProp 1)]⟩ (fun _ => Json.null)
        (Json.obj [("query", Json.str "x")])).2 =
      [⟨"webSearch", Json.obj [("query", Json.str "x")]⟩] :=
  ⟨(tool_proxy_input_validation _ _ _).1 "query" rfl,
   (tool_proxy_input_validation _ _ _).2 rfl⟩

theorem aggregatePages_ok (ps : List ToolPage) :
    ∀ (prev : Option String) (last : ToolPage),
      last.nextCursor = none →
      (∀ p ∈ ps, p.nextCursor ≠ none) →
      (prev :: ps.map ToolPage.nextCursor).Chain' (· ≠ ·) →
      aggregatePages (ps ++ [last]) prev =
        .ok ((ps.map ToolPage.tools).flatten ++ last.tools) := by
  induction ps with
  | nil =>
    intro prev last hlast _ _
    simp [aggregatePages, hlast]
  | cons p rest ih =>
    intro prev last hlast hsome hchain
    obtain ⟨c, hc⟩ : ∃ c, p.nextCursor = some c := by
      cases h : p.nextCursor with
      | none => exact absurd h (hsome p (by simp))
      | some c => exact ⟨c, rfl⟩
    rw [List.map_cons, hc, List.chain'_cons] at hchain
    obtain ⟨hne, htail⟩ := hchain
    have hrec := ih (some c) last hlast (fun q hq => hsome q (by simp [hq])) htail
    simp only [List.cons_append, aggregatePages, hc, if_neg hne, List.append_eq]
    rw [hrec]
    simp

/-- Claim C5: aggregating N pagination responses whose final page lacks
`nextCursor` (and whose successive cursors never repeat) yields the
concatenation of all pages' `tools` arrays in page order; a response that
repeats the previous response's cursor fails the aggregate call with
`PaginationLoopError`, returning no partial list. -/
theorem listTools_pagination_spec :
    (∀ (ps : List ToolPage) (last : ToolPage),
        last.nextCursor = none →
        (∀ p ∈ ps, p.nextCursor ≠ none) →
        (ps.map ToolPage.nextCursor).Chain' (· ≠ ·) →
        aggregatePages (ps ++ [last]) none =
          .ok ((ps.map ToolPage.tools).flatten ++ last.tools)) ∧
      (∀ (p1 p2 : ToolPage) (rest : List ToolPage) (c : String),
        p1.nextCursor = some c → p2.nextCursor = some c →
        aggregatePages (p1 :: p2 :: rest) none = .error (.paginationLoop c)) := by
  constructor
  · intro ps last hlast hsome hchain
    apply aggregatePages_ok ps none last hlast hsome
    rw [List.chain'_cons']
    refine ⟨?_, hchain⟩
    intro h hh
    cases ps with
    | nil => simp at hh
    | cons q qs =>
      simp only [List.map_cons, List.head?_cons, Option.mem_def, Option.some.injEq] at hh
      subst hh
      exact fun he => (hsome q (by simp)) he.symm
  · intro p1 p2 rest c h1 h2
    simp [aggregatePages, h1, h2]

theorem listTools_pagination_spec_witness :
    aggregatePages
        [⟨[Json.num 1], some "a"⟩, ⟨[Json.num 2], some "b"⟩, ⟨[Json.num 3], none⟩]
        none =
      .ok [Json.num 1, Json.num 2, Json.num 3] ∧
      aggregatePages [⟨[Json.num 1], some "a"⟩, ⟨[Json.num 4], some "a"⟩] none =
        .error (.paginationLoop "a") :=
  ⟨listTools_pagination_spec.1
      [⟨[Json.num 1], some "a"⟩, ⟨[Json.num 2], some "b"⟩] ⟨[Json.num 3], none⟩
      rfl (by simp) (by simp),
   listTools_pagination_spec.2 ⟨[Json.num 1], some "a"⟩ ⟨[Json.num 4], some "a"⟩
      [] "a" rfl rfl⟩

theorem jsonString_id : IdOnSuccess jsonString := by
  intro v w h
  cases v <;> simp [jsonString] at h
  simp [h]

theorem jsonBool_id : IdOnSuccess jsonBool := by
  intro v w h
  cases v <;> simp [jsonBool] at h
  simp [h]

theorem jsonAnyObject_id : IdOnSuccess jsonAnyObject := by
  intro v w h
  cases v <;> simp [jsonAnyObject] at h
  simp [h]

theorem jsonUnknown_id : IdOnSuccess jsonUnknown := by
  intro v w h
  simp [jsonUnknown] at h
  simp [h]

theorem jsonLiteral_id (lit : String) : IdOnSuccess (jsonLiteral lit) := by
  intro v w h
  cases v <;> simp [jsonLiteral] at h
  exact h.2.symm

theorem jsonBase64_id : IdOnSuccess jsonBase64 := by
  intro v w h
  cases v <;> simp [jsonBase64] at h
  exact h.2.symm

theorem parseKnown_id (specs : List FieldSpec)
    (hid : ∀ s ∈ specs, IdOnSuccess s.parseVal) :
    ∀ fields out, parseKnown specs true fields = some out → out = fields := by
  intro fields
  induction fields with
  | nil =>
    intro out h
    simpa [parseKnown] using h.symm
  | cons p rest ih =>
    intro out h
    obtain ⟨k, v⟩ := p
    simp only [parseKnown] at h
    split at h
    · rename_i s hs
      split at h
      · rename_i w tail hpv ht
        simp only [Option.some.injEq] at h
        have hw : w = v := hid s (List.mem_of_find?_eq_some hs) v w hpv
        rw [← h, hw, ih tail ht]
      · exact absurd h (by simp)
    · split at h
      · rename_i tail ht
        simp only [if_true, Option.some.injEq] at h
        rw [← h, ih tail ht]
      · exact absurd h (by simp)

theorem parseAbsent_nodefault (specs : List FieldSpec)
    (hnd : ∀ s ∈ specs, ∀ d, s.onAbsent ≠ some (some d)) :
    ∀ fields extra, parseAbsent specs fields = some extra → extra = [] := by
  induction specs with
  | nil =>
    intro fields extra h
    simpa [parseAbsent] using h.symm
  | cons s rest ih =>
    intro fields extra h
    have hs : ∀ q ∈ rest, ∀ d, q.onAbsent ≠ some (some d) :=
      fun q hq => hnd q (by simp [hq])
    simp only [parseAbsent] at h
    split at h
    · exact absurd h (by simp)
    · rename_i tail hrest
      have htail : tail = [] := ih hs fields tail hrest
      split at h
      · simp only [Option.some.injEq] at h
        rw [← h, htail]
      · split at h
        · exact absurd h (by simp)
        · simp only [Option.some.injEq] at h
          rw [← h, htail]
        · rename_i d ha
          exact absurd ha (hnd s (by simp) d)

theorem parseObj_id (specs : List FieldSpec)
    (hid : ∀ s ∈ specs, IdOnSuccess s.parseVal)
    (hnd : ∀ s ∈ specs, ∀ d, s.onAbsent ≠ some (some d)) :
    IdOnSuccess (parseObj specs true) := by
  intro v w h
  cases v with
  | obj fields =>
    simp only [parseObj] at h
    split at h
    · rename_i known extra hk ha
      simp only [Option.some.injEq] at h
      rw [← h, parseKnown_id specs hid fields known hk,
        parseAbsent_nodefault specs hnd fields extra ha]
      simp
    · exact absurd h (by simp)
  | null => exact absurd h (by simp [parseObj])
  | bool b => exact absurd h (by simp [parseObj])
  | num n => exact absurd h (by simp [parseObj])
  | str s => exact absurd h (by simp [parseObj])
  | arr xs => exact absurd h (by simp [parseObj])

theorem listChangedCapability_id : IdOnSuccess ListChangedCapabilitySchema := by
  apply parseObj_id
  · intro s hs
    simp only [List.mem_singleton] at hs
    rw [hs]
    exact jsonBool_id
  · intro s hs d
    simp only [List.mem_singleton] at hs
    rw [hs]
    simp

theorem resourcesCapability_id : IdOnSuccess ResourcesCapabilitySchema := by
  apply parseObj_id
  · intro s hs
    rcases List.mem_cons.mp hs with h | h
    · rw [h]; exact jsonBool_id
    · simp only [List.mem_singleton] at h
      rw [h]; exact jsonBool_id
  · intro s hs d
    rcases List.mem_cons.mp hs with h | h
    · rw [h]; simp
    · simp only [List.mem_singleton] at h
      rw [h]; simp

/-- Claim C7 (amended): validating a payload against the passthrough
schemas (`BaseParamsSchema`/`ResultSchema` and `ServerCapabilitiesSchema`,
including their nested passthrough objects) returns the payload unchanged,
so no unknown field is dropped there; the plain-object `RequestSchema`
envelope, by contrast, strips unknown top-level fields (see the
counterexample). -/
theorem passthrough_roundtrip :
    (∀ v w, BaseParamsSchema v = some w → w = v) ∧
      (∀ v w, ServerCapabilitiesSchema v = some w → w = v) := by
  constructor
  · apply parseObj_id
    · intro s hs
      simp only [List.mem_singleton] at hs
      rw [hs]
      exact jsonAnyObject_id
    · intro s hs d
      simp only [List.mem_singleton] at hs
      rw [hs]
      simp
  · apply parseObj_id
    · intro s hs
      simp only [List.mem_cons, List.not_mem_nil, or_false] at hs
      rcases hs with h | h | h | h | h <;> rw [h]
      · exact jsonAnyObject_id
      · exact jsonAnyObject_id
      · exact listChangedCapability_id
      · exact resourcesCapability_id
      · exact listChangedCapability_id
    · intro s hs d
      simp only [List.mem_cons, List.not_mem_nil, or_false] at hs
      rcases hs with h | h | h | h | h <;> rw [h] <;> simp

theorem passthrough_roundtrip_witness :
    Json.obj [("custom", Json.num 1), ("_meta", Json.obj [("trace", Json.str "t")])] =
      Json.obj [("custom", Json.num 1), ("_meta", Json.obj [("trace", Json.str "t")])] ∧
      Json.obj [("tools", Json.obj [("listChanged", Json.bool true), ("extra", Json.num 2)]),
          ("vendor", Json.str "x")] =
        Json.obj [("tools", Json.obj [("listChanged", Json.bool true), ("extra", Json.num 2)]),
          ("vendor", Json.str "x")] :=
  ⟨passthrough_roundtrip.1
      (Json.obj [("custom", Json.num 1), ("_meta", Json.obj [("trace", Json.str "t")])])
      (Json.obj [("custom", Json.num 1), ("_meta", Json.obj [("trace", Json.str "t")])]) rfl,
   passthrough_roundtrip.2
      (Json.obj [("tools", Json.obj [("listChanged", Json.bool true), ("extra", Json.num 2)]),
          ("vendor", Json.str "x")])
      (Json.obj [("tools", Json.obj [("listChanged", Json.bool true), ("extra", Json.num 2)]),
          ("vendor", Json.str "x")]) rfl⟩

/-- Claim C7 (counterexample): the `RequestSchema` envelope is a plain
`z.object` (no `.passthrough()`), so validating a request with an unknown
top-level field `trace` drops that field — validation does not preserve
every unrecognized field. -/
theorem request_drops_unknown_field :
    RequestSchema (Json.obj [("method", Json.str "tools/list"), ("trace", Json.num 7)]) =
        some (Json.obj [("method", Json.str "tools/list")]) ∧
      (Json.obj [("method", Json.str "tools/list")]).getField "trace" = none :=
  ⟨rfl, rfl⟩

theorem parseKnown_isSome_of (specs : List FieldSpec) (ku : Bool) :
    ∀ fields : List (String × Json),
      (∀ p ∈ fields, ∀ s, specs.find? (fun x => x.key == p.1) = some s →
        (s.parseVal p.2).isSome = true) →
      (parseKnown specs ku fields).isSome = true := by
  intro fields
  induction fields with
  | nil =>
    intro _
    simp [parseKnown]
  | cons p rest ih =>
    intro h
    obtain ⟨k, v⟩ := p
    have hrest := ih fun q hq => h q (by simp [hq])
    obtain ⟨tail, ht⟩ := Option.isSome_iff_exists.mp hrest
    simp only [parseKnown]
    cases hs : specs.find? (fun s => s.key == k) with
    | some s =>
      have h1 := h (k, v) (by simp) s hs
      obtain ⟨w, hw⟩ := Option.isSome_iff_exists.mp h1
      simp only at hw
      simp [hw, ht]
    | none =>
      simp [ht]

theorem parseAbsent_isSome_of (specs : List FieldSpec) :
    ∀ fields : List (String × Json),
      (∀ s ∈ specs, s.onAbsent = none →
        (fields.find? (fun p => p.1 == s.key)).isSome = true) →
      (parseAbsent specs fields).isSome = true := by
  induction specs with
  | nil =>
    intro fields _
    simp [parseAbsent]
  | cons s rest ih =>
    intro fields h
    have hrest := ih fields fun q hq => h q (by simp [hq])
    obtain ⟨tail, ht⟩ := Option.isSome_iff_exists.mp hrest
    simp only [parseAbsent]
    rw [ht]
    cases hf : fields.find? (fun p => p.1 == s.key) with
    | some q => simp
    | none =>
      cases ha : s.onAbsent with
      | none =>
        have := h s (by simp) ha
        rw [hf] at this
        simp at this
      | some o => cases o <;> simp

theorem legacy_accepts (fields : List (String × Json))
    (hmeta : ∀ p ∈ fields, p.1 = "_meta" → ∃ fs, p.2 = Json.obj fs) :
    (CallToolLegacyResultSchema (Json.obj fields)).isSome = true := by
  have hk : (parseKnown
      [⟨"_meta", jsonAnyObject, some none⟩, ⟨"toolResult", jsonUnknown, some none⟩]
      true fields).isSome = true := by
    apply parseKnown_isSome_of
    intro p hp s hs
    obtain ⟨k, v⟩ := p
    by_cases h1 : k = "_meta"
    · subst h1
      simp only [List.find?] at hs
      simp only [beq_self_eq_true] at hs
      simp only [Option.some.injEq] at hs
      obtain ⟨fs, hfs⟩ := hmeta ("_meta", v) hp rfl
      simp only at hfs
      rw [← hs, hfs]
      simp [jsonAnyObject]
    · by_cases h2 : k = "toolResult"
      · subst h2
        simp only [List.find?, beq_eq_false_iff_ne.mpr (Ne.symm h1), beq_self_eq_true,
          Option.some.injEq] at hs
        rw [← hs]
        simp [jsonUnknown]
      · simp [List.find?, beq_eq_false_iff_ne.mpr (Ne.symm h1),
          beq_eq_false_iff_ne.mpr (Ne.symm h2)] at hs
  have ha : (parseAbsent
      [⟨"_meta", jsonAnyObject, some none⟩, ⟨"toolResult", jsonUnknown, some none⟩]
      fields).isSome = true := by
    apply parseAbsent_isSome_of
    intro s hs habs
    rcases List.mem_cons.mp hs with h | h
    · rw [h] at habs; simp at habs
    · simp only [List.mem_singleton] at h
      rw [h] at habs; simp at habs
  obtain ⟨known, hkn⟩ := Option.isSome_iff_exists.mp hk
  obtain ⟨extra, hex⟩ := Option.isSome_iff_exists.mp ha
  simp [CallToolLegacyResultSchema, parseObj, hkn, hex]

/-- Claim C9 (counterexample): not every JSON object validates against the
`ToolResult` schema — an object whose `_meta` field is not itself an
object (here `{_meta: 5}`) is rejected by both dialects, because both
extend `ResultSchema`, whose optional `_meta` must be an object when
present. -/
theorem callToolResult_rejects_bad_meta :
    CallToolResultSchema (Json.obj [("_meta", Json.num 5)]) = none := rfl

/-- Claim C9 (amended): every JSON object whose `_meta` field, when
present, is itself an object — including the empty object and objects
whose `content` field is malformed — validates against the `ToolResult`
schema, because the legacy branch's `toolResult` field is typed `unknown`
and accepts an absent key. -/
theorem callToolResult_accepts_objects (fields : List (String × Json))
    (hmeta : ∀ p ∈ fields, p.1 = "_meta" → ∃ fs, p.2 = Json.obj fs) :
    (CallToolResultSchema (Json.obj fields)).isSome = true := by
  have hleg := legacy_accepts fields hmeta
  obtain ⟨w, hw⟩ := Option.isSome_iff_exists.mp hleg
  cases h1 : CallToolContentResultSchema (Json.obj fields) <;>
    simp [CallToolResultSchema, parseUnion, h1, hw]

theorem callToolResult_accepts_objects_witness :
    (CallToolResultSchema (Json.obj [("content", Json.num 3)])).isSome = true ∧
      (CallToolResultSchema (Json.obj [])).isSome = true :=
  ⟨callToolResult_accepts_objects [("content", Json.num 3)] (by simp),
   callToolResult_accepts_objects [] (by simp)⟩

theorem parseAbsent_required (specs : List FieldSpec) :
    ∀ fields extra s, parseAbsent specs fields = some extra → s ∈ specs →
      s.onAbsent = none →
      (fields.find? (fun p => p.1 == s.key)).isSome = true := by
  induction specs with
  | nil =>
    intro fields extra s _ hs _
    simp at hs
  | cons t rest ih =>
    intro fields extra s h hs habs
    simp only [parseAbsent] at h
    split at h
    · exact absurd h (by simp)
    · rename_i tail hrest
      rcases List.mem_cons.mp hs with heq | hmem
      · subst heq
        split at h
        · rename_i q hq
          rw [hq]
          rfl
        · simp [habs] at h
      · exact ih fields tail s hrest hmem habs

theorem parseKnown_find_none (specs : List FieldSpec) (ku : Bool) :
    ∀ fields out k, parseKnown specs ku fields = some out →
      fields.find? (fun p => p.1 == k) = none →
      out.find? (fun p => p.1 == k) = none := by
  intro fields
  induction fields with
  | nil =>
    intro out k h _
    simp only [parseKnown, Option.some.injEq] at h
    rw [← h]
    simp
  | cons p rest ih =>
    intro out k h hf
    obtain ⟨kk, v⟩ := p
    have hpred : (kk == k) = false := by
      cases hb : (kk == k) with
      | false => rfl
      | true =>
        rw [List.find?_cons_of_pos rest (by simpa using hb)] at hf
        exact absurd hf (by simp)
    have hrest : rest.find? (fun p => p.1 == k) = none := by
      rw [List.find?_cons_of_neg rest (by simpa using hpred)] at hf
      exact hf
    simp only [parseKnown] at h
    split at h
    · rename_i s hs
      split at h
      · rename_i w tail hpv ht
        simp only [Option.some.injEq] at h
        rw [← h, List.find?_cons_of_neg tail (by simpa using hpred)]
        exact ih tail k ht hrest
      · exact absurd h (by simp)
    · split at h
      · rename_i tail ht
        simp only [Option.some.injEq] at h
        rw [← h]
        cases ku with
        | true =>
          simp only [if_true]
          rw [List.find?_cons_of_neg tail (by simpa using hpred)]
          exact ih tail k ht hrest
        | false =>
          simp only [Bool.false_eq_true, if_false]
          exact ih tail k ht hrest
      · exact absurd h (by simp)

/-- Claim C3: decoding a `content[]`-dialect payload that omits `isError`
through the `ToolResult` schema succeeds with an `isError` value of
`false` — the default applies when the field is absent. -/
theorem callToolResult_isError_default (fields : List (String × Json)) (w : Json)
    (habs : fields.find? (fun p => p.1 == "isError") = none)
    (hc : CallToolContentResultSchema (Json.obj fields) = some w) :
    CallToolResultSchema (Json.obj fields) = some w ∧
      w.getField "isError" = some (Json.bool false) := by
  constructor
  · simp [CallToolResultSchema, parseUnion, hc]
  · simp only [CallToolContentResultSchema, parseObj] at hc
    split at hc
    · rename_i known extra hk ha
      simp only [Option.some.injEq] at hc
      have hcontent := parseAbsent_required _ fields extra
        ⟨"content", parseArray ContentPartSchema, none⟩ ha (by simp) rfl
      obtain ⟨pc, hpc⟩ := Option.isSome_iff_exists.mp hcontent
      have hex : extra = [("isError", Json.bool false)] := by
        cases hm : fields.find? (fun p => p.1 == "_meta") with
        | some q =>
          simp [parseAbsent, habs, hpc, hm] at ha
          exact ha.symm
        | none =>
          simp [parseAbsent, habs, hpc, hm] at ha
          exact ha.symm
      have hkn : known.find? (fun p => p.1 == "isError") = none :=
        parseKnown_find_none _ _ fields known "isError" hk habs
      rw [← hc, hex]
      simp [Json.getField, List.find?_append, hkn, List.find?]
    · exact absurd hc (by simp)

theorem callToolResult_isError_default_witness :
    CallToolResultSchema (Json.obj [("content", Json.arr [])]) =
        some (Json.obj [("content", Json.arr []), ("isError", Json.bool false)]) ∧
      (Json.obj [("content", Json.arr []), ("isError", Json.bool false)]).getField
          "isError" =
        some (Json.bool false) :=
  callToolResult_isError_default [("content", Json.arr [])]
    (Json.obj [("content", Json.arr []), ("isError", Json.bool false)]) rfl rfl

/-- Claim C8: decoding is deterministic and prefers the `content[]`
dialect — whenever a payload matches the `content[]` dialect (in
particular when it matches both dialects), the union resolves to the
`content[]` branch, which is tried first. -/
theorem union_prefers_content_dialect (v : Json)
    (h : (CallToolContentResultSchema v).isSome = true) :
    CallToolResultSchema v = CallToolContentResultSchema v := by
  obtain ⟨w, hw⟩ := Option.isSome_iff_exists.mp h
  simp [CallToolResultSchema, parseUnion, hw]

theorem union_prefers_content_dialect_witness :
    (CallToolLegacyResultSchema
        (Json.obj [("content", Json.arr []), ("toolResult", Json.num 42)])).isSome =
        true ∧
      CallToolResultSchema
          (Json.obj [("content", Json.arr []), ("toolResult", Json.num 42)]) =
        CallToolContentResultSchema
          (Json.obj [("content", Json.arr []), ("toolResult", Json.num 42)]) :=
  ⟨rfl, union_prefers_content_dialect
    (Json.obj [("content", Json.arr []), ("toolResult", Json.num 42)]) rfl⟩

theorem parseKnown_mem (specs : List FieldSpec) (ku : Bool) :
    ∀ fields out, parseKnown specs ku fields = some out →
      ∀ k v s, (k, v) ∈ fields →
        specs.find? (fun x => x.key == k) = some s →
        (s.parseVal v).isSome = true := by
  intro fields
  induction fields with
  | nil =>
    intro out _ k v s hmem _
    simp at hmem
  | cons p rest ih =>
    intro out h k v s hmem hs
    obtain ⟨kk, vv⟩ := p
    rcases List.mem_cons.mp hmem with heq | hmem2
    · injection heq with hk hv
      subst hk
      subst hv
      simp only [parseKnown] at h
      split at h
      · rename_i s2 hs2
        rw [hs] at hs2
        injection hs2 with hs2
        split at h
        · rename_i w tail hpv ht
          rw [hs2, hpv]
          rfl
        · exact absurd h (by simp)
      · rename_i hnone
        rw [hs] at hnone
        exact absurd hnone (by simp)
    · simp only [parseKnown] at h
      split at h
      · split at h
        · rename_i w tail hpv ht
          exact ih tail ht k v s hmem2 hs
        · exact absurd h (by simp)
      · split at h
        · rename_i tail ht
          exact ih tail ht k v s hmem2 hs
        · exact absurd h (by simp)

theorem find?_nodup_val :
    ∀ (fields : List (String × Json)) (k : String) (w v : Json),
      (fields.map Prod.fst).Nodup →
      fields.find? (fun p => p.1 == k) = some (k, w) →
      (k, v) ∈ fields → v = w := by
  intro fields
  induction fields with
  | nil =>
    intro k w v _ hf _
    simp at hf
  | cons p rest ih =>
    intro k w v hnd hf hmem
    obtain ⟨kk, vv⟩ := p
    simp only [List.map_cons, List.nodup_cons] at hnd
    obtain ⟨hknotin, hndrest⟩ := hnd
    by_cases hk : kk = k
    · subst hk
      rw [List.find?_cons_of_pos rest (by simp)] at hf
      simp only [Option.some.injEq, Prod.mk.injEq] at hf
      rcases List.mem_cons.mp hmem with heq | hmem2
      · injection heq with h1 h2
        rw [h2]
        exact hf.2
      · exact absurd (List.mem_map.mpr ⟨(kk, v), hmem2, rfl⟩) hknotin
    · rw [List.find?_cons_of_neg rest (by simpa using beq_eq_false_iff_ne.mpr hk)] at hf
      rcases List.mem_cons.mp hmem with heq | hmem2
      · injection heq with h1 h2
        exact absurd h1.symm hk
      · exact ih k w v hndrest hf hmem2

theorem textResource_accepts_iff (fs : List (String × Json)) (u : String)
    (hnd : (fs.map Prod.fst).Nodup)
    (huri : fs.find? (fun p => p.1 == "uri") = some ("uri", Json.str u))
    (hmime : fs.find? (fun p => p.1 == "mimeType") = none ∨
      ∃ m, fs.find? (fun p => p.1 == "mimeType") = some ("mimeType", Json.str m)) :
    (TextResourceContentsSchema (Json.obj fs)).isSome = true ↔
      ∃ t, fs.find? (fun p => p.1 == "text") = some ("text", Json.str t) := by
  constructor
  · intro h
    simp only [TextResourceContentsSchema, parseObj] at h
    split at h
    · rename_i known extra hk ha
      have htext := parseAbsent_required _ fs extra
        ⟨"text", jsonString, none⟩ ha (by simp) rfl
      obtain ⟨p, hp⟩ := Option.isSome_iff_exists.mp htext
      obtain ⟨pk, pv⟩ := p
      have hpk : pk = "text" := by simpa using List.find?_some hp
      subst hpk
      have hpv := parseKnown_mem _ _ fs known hk "text" pv
        ⟨"text", jsonString, none⟩ (List.mem_of_find?_eq_some hp) (by rfl)
      cases pv with
      | str t => exact ⟨t, hp⟩
      | null => simp [jsonString] at hpv
      | bool b => simp [jsonString] at hpv
      | num n => simp [jsonString] at hpv
      | arr xs => simp [jsonString] at hpv
      | obj o => simp [jsonString] at hpv
    · simp at h
  · rintro ⟨t, htext⟩
    have hk : (parseKnown
        [⟨"uri", jsonString, none⟩, ⟨"mimeType", jsonString, some none⟩,
         ⟨"text", jsonString, none⟩] true fs).isSome = true := by
      apply parseKnown_isSome_of
      intro p hp s hs
      obtain ⟨k, v⟩ := p
      simp only at hs hp ⊢
      by_cases h1 : k = "uri"
      · subst h1
        simp only [List.find?, beq_self_eq_true, Option.some.injEq] at hs
        have hv : v = Json.str u := find?_nodup_val fs "uri" (Json.str u) v hnd huri hp
        rw [← hs, hv]
        rfl
      · by_cases h2 : k = "mimeType"
        · subst h2
          rcases hmime with hm | ⟨m, hm⟩
          · exfalso
            have hsome : (fs.find? (fun p => p.1 == "mimeType")).isSome = true :=
              List.find?_isSome.mpr ⟨("mimeType", v), hp, by simp⟩
            rw [hm] at hsome
            simp at hsome
          · have hv : v = Json.str m := find?_nodup_val fs "mimeType" (Json.str m) v hnd hm hp
            simp only [List.find?, beq_iff_eq] at hs
            simp only [show ("uri" == "mimeType") = false from rfl,
              show ("mimeType" == "mimeType") = true from rfl, Option.some.injEq] at hs
            rw [← hs, hv]
            rfl
        · by_cases h3 : k = "text"
          · subst h3
            have hv : v = Json.str t := find?_nodup_val fs "text" (Json.str t) v hnd htext hp
            simp only [List.find?,
              show ("uri" == "text") = false from rfl,
              show ("mimeType" == "text") = false from rfl,
              show ("text" == "text") = true from rfl, Option.some.injEq] at hs
            rw [← hs, hv]
            rfl
          · exfalso
            simp [List.find?, beq_eq_false_iff_ne.mpr (Ne.symm h1),
              beq_eq_false_iff_ne.mpr (Ne.symm h2),
              beq_eq_false_iff_ne.mpr (Ne.symm h3)] at hs
    have ha : (parseAbsent
        [⟨"uri", jsonString, none⟩, ⟨"mimeType", jsonString, some none⟩,
         ⟨"text", jsonString, none⟩] fs).isSome = true := by
      apply parseAbsent_isSome_of
      intro s hs habs
      simp only [List.mem_cons, List.not_mem_nil, or_false] at hs
      rcases hs with h | h | h
      · rw [h]
        simp [huri]
      · rw [h] at habs
        simp at habs
      · rw [h]
        simp [htext]
    obtain ⟨known, hkn⟩ := Option.isSome_iff_exists.mp hk
    obtain ⟨extra, hex⟩ := Option.isSome_iff_exists.mp ha
    simp [TextResourceContentsSchema, parseObj, hkn, hex]

theorem blobResource_accepts_iff (fs : List (String × Json)) (u : String)
    (hnd : (fs.map Prod.fst).Nodup)
    (huri : fs.find? (fun p => p.1 == "uri") = some ("uri", Json.str u))
    (hmime : fs.find? (fun p => p.1 == "mimeType") = none ∨
      ∃ m, fs.find? (fun p => p.1 == "mimeType") = some ("mimeType", Json.str m)) :
    (BlobResourceContentsSchema (Json.obj fs)).isSome = true ↔
      ∃ b, fs.find? (fun p => p.1 == "blob") = some ("blob", Json.str b) ∧
        isBase64 b = true := by
  constructor
  · intro h
    simp only [BlobResourceContentsSchema, parseObj] at h
    split at h
    · rename_i known extra hk ha
      have hblob := parseAbsent_required _ fs extra
        ⟨"blob", jsonBase64, none⟩ ha (by simp) rfl
      obtain ⟨p, hp⟩ := Option.isSome_iff_exists.mp hblob
      obtain ⟨pk, pv⟩ := p
      have hpk : pk = "blob" := by simpa using List.find?_some hp
      subst hpk
      have hpv := parseKnown_mem _ _ fs known hk "blob" pv
        ⟨"blob", jsonBase64, none⟩ (List.mem_of_find?_eq_some hp) (by rfl)
      cases pv with
      | str b =>
        refine ⟨b, hp, ?_⟩
        simp only [jsonBase64] at hpv
        split at hpv
        · assumption
        · simp at hpv
      | null => simp [jsonBase64] at hpv
      | bool b => simp [jsonBase64] at hpv
      | num n => simp [jsonBase64] at hpv
      | arr xs => simp [jsonBase64] at hpv
      | obj o => simp [jsonBase64] at hpv
    · simp at h
  · rintro ⟨b, hblob, hb64⟩
    have hk : (parseKnown
        [⟨"uri", jsonString, none⟩, ⟨"mimeType", jsonString, some none⟩,
         ⟨"blob", jsonBase64, none⟩] true fs).isSome = true := by
      apply parseKnown_isSome_of
      intro p hp s hs
      obtain ⟨k, v⟩ := p
      simp only at hs hp ⊢
      by_cases h1 : k = "uri"
      · subst h1
        simp only [List.find?, beq_self_eq_true, Option.some.injEq] at hs
        have hv : v = Json.str u := find?_nodup_val fs "uri" (Json.str u) v hnd huri hp
        rw [← hs, hv]
        rfl
      · by_cases h2 : k = "mimeType"
        · subst h2
          rcases hmime with hm | ⟨m, hm⟩
          · exfalso
            have hsome : (fs.find? (fun p => p.1 == "mimeType")).isSome = true :=
              List.find?_isSome.mpr ⟨("mimeType", v), hp, by simp⟩
            rw [hm] at hsome
            simp at hsome
          · have hv : v = Json.str m := find?_nodup_val fs "mimeType" (Json.str m) v hnd hm hp
            simp only [List.find?,
              show ("uri" == "mimeType") = false from rfl,
              show ("mimeType" == "mimeType") = true from rfl, Option.some.injEq] at hs
            rw [← hs, hv]
            rfl
        · by_cases h3 : k = "blob"
          · subst h3
            have hv : v = Json.str b := find?_nodup_val fs "blob" (Json.str b) v hnd hblob hp
            simp only [List.find?,
              show ("uri" == "blob") = false from rfl,
              show ("mimeType" == "blob") = false from rfl,
              show ("blob" == "blob") = true from rfl, Option.some.injEq] at hs
            rw [← hs, hv]
            simp [jsonBase64, hb64]
          · exfalso
            simp [List.find?, beq_eq_false_iff_ne.mpr (Ne.symm h1),
              beq_eq_false_iff_ne.mpr (Ne.symm h2),
              beq_eq_false_iff_ne.mpr (Ne.symm h3)] at hs
    have ha : (parseAbsent
        [⟨"uri", jsonString, none⟩, ⟨"mimeType", jsonString, some none⟩,
         ⟨"blob", jsonBase64, none⟩] fs).isSome = true := by
      apply parseAbsent_isSome_of
      intro s hs habs
      simp only [List.mem_cons, List.not_mem_nil, or_false] at hs
      rcases hs with h | h | h
      · rw [h]
        simp [huri]
      · rw [h] at habs
        simp at habs
      · rw [h]
        simp [hblob]
    obtain ⟨known, hkn⟩ := Option.isSome_iff_exists.mp hk
    obtain ⟨extra, hex⟩ := Option.isSome_iff_exists.mp ha
    simp [BlobResourceContentsSchema, parseObj, hkn, hex]

theorem embedded_accepts_iff (fs : List (String × Json)) :
    (EmbeddedResourceSchema (Json.obj
        [("type", Json.str "resource"), ("resource", Json.obj fs)])).isSome = true ↔
      (TextResourceContentsSchema (Json.obj fs)).isSome = true ∨
        (BlobResourceContentsSchema (Json.obj fs)).isSome = true := by
  cases hT : TextResourceContentsSchema (Json.obj fs) with
  | some w =>
    simp [EmbeddedResourceSchema, parseObj, parseKnown, parseAbsent, parseUnion,
      jsonLiteral, List.find?, hT]
  | none =>
    cases hB : BlobResourceContentsSchema (Json.obj fs) with
    | some w =>
      simp [EmbeddedResourceSchema, parseObj, parseKnown, parseAbsent, parseUnion,
        jsonLiteral, List.find?, hT, hB]
    | none =>
      simp [EmbeddedResourceSchema, parseObj, parseKnown, parseAbsent, parseUnion,
        jsonLiteral, List.find?, hT, hB]

/-- Claim C2 (counterexample): a resource content part whose resource
carries BOTH `text` and `blob` is accepted by validation (the `text`
branch of the union matches and `blob` passes through), contradicting the
claim that exactly one of the two must be present. -/
theorem embeddedResource_both_accepted :
    (EmbeddedResourceSchema (Json.obj
        [("type", Json.str "resource"),
         ("resource", Json.obj
           [("uri", Json.str "file:///a"), ("text", Json.str "hello"),
            ("blob", Json.str "aGk=")])])).isSome = true ∧
      (Json.obj
          [("uri", Json.str "file:///a"), ("text", Json.str "hello"),
           ("blob", Json.str "aGk=")]).getField "text" = some (Json.str "hello") ∧
      (Json.obj
          [("uri", Json.str "file:///a"), ("text", Json.str "hello"),
           ("blob", Json.str "aGk=")]).getField "blob" = some (Json.str "aGk=") :=
  ⟨rfl, rfl, rfl⟩

/-- Claim C2 (amended): a resource content part (with a string `uri`,
distinct keys, and a well-typed optional `mimeType`) is accepted by
validation if and only if at least one of `text` (a string) or `blob` (a
valid base64 string) is present: with neither present it is rejected, but
a resource carrying both is accepted (via the `text` branch), not
rejected. -/
theorem embeddedResource_acceptance (fs : List (String × Json)) (u : String)
    (hnd : (fs.map Prod.fst).Nodup)
    (huri : fs.find? (fun p => p.1 == "uri") = some ("uri", Json.str u))
    (hmime : fs.find? (fun p => p.1 == "mimeType") = none ∨
      ∃ m, fs.find? (fun p => p.1 == "mimeType") = some ("mimeType", Json.str m)) :
    (EmbeddedResourceSchema (Json.obj
        [("type", Json.str "resource"), ("resource", Json.obj fs)])).isSome = true ↔
      ((∃ t, fs.find? (fun p => p.1 == "text") = some ("text", Json.str t)) ∨
       (∃ b, fs.find? (fun p => p.1 == "blob") = some ("blob", Json.str b) ∧
          isBase64 b = true)) := by
  rw [embedded_accepts_iff fs, textResource_accepts_iff fs u hnd huri hmime,
    blobResource_accepts_iff fs u hnd huri hmime]

theorem embeddedResource_acceptance_witness :
    ((EmbeddedResourceSchema (Json.obj
        [("type", Json.str "resource"),
         ("resource", Json.obj [("uri", Json.str "u"), ("text", Json.str "t")])])).isSome =
        true ↔
      ((∃ t, ([("uri", Json.str "u"), ("text", Json.str "t")] :
            List (String × Json)).find? (fun p => p.1 == "text") =
          some ("text", Json.str t)) ∨
       (∃ b, ([("uri", Json.str "u"), ("text", Json.str "t")] :
            List (String × Json)).find? (fun p => p.1 == "blob") =
          some ("blob", Json.str b) ∧ isBase64 b = true))) :=
  embeddedResource_acceptance [("uri", Json.str "u"), ("text", Json.str "t")] "u"
    (by simp) rfl (Or.inl rfl)
